import Mathlib

/-!
Shallow embedding of the poker-trainer core (card model, deck, hand-strength
evaluator, range/tier theory, decision grading engine), translated from the
Python sources in `src/core/deck.py`, `src/core/hand_eval.py`,
`src/core/positions.py`, `src/grading/theory.py`, `src/grading/evaluator.py`
and `src/scenarios/scenario.py`, together with theorems settling the claims
about it.

Numeric pot/bet amounts are modelled as rationals; Python raises
(`ValueError`, `TypeError`) are modelled with `Except`.
-/

namespace PokerTrainer

/-! ### Card model (`src/core/deck.py`) -/

/-- `Rank` enum: ordinal 2–14 with a display symbol. -/
inductive Rank where
  | TWO | THREE | FOUR | FIVE | SIX | SEVEN | EIGHT | NINE | TEN
  | JACK | QUEEN | KING | ACE
deriving DecidableEq, Repr

/-- `Rank.rank_value`: the ordinal 2–14. -/
def Rank.rank_value : Rank → Nat
  | .TWO => 2 | .THREE => 3 | .FOUR => 4 | .FIVE => 5 | .SIX => 6
  | .SEVEN => 7 | .EIGHT => 8 | .NINE => 9 | .TEN => 10
  | .JACK => 11 | .QUEEN => 12 | .KING => 13 | .ACE => 14

/-- `Rank.symbol`: the single display character. -/
def Rank.symbol : Rank → Char
  | .TWO => '2' | .THREE => '3' | .FOUR => '4' | .FIVE => '5' | .SIX => '6'
  | .SEVEN => '7' | .EIGHT => '8' | .NINE => '9' | .TEN => 'T'
  | .JACK => 'J' | .QUEEN => 'Q' | .KING => 'K' | .ACE => 'A'

/-- Iteration order of the `Rank` enum (declaration order, TWO first). -/
def rankList : List Rank :=
  [.TWO, .THREE, .FOUR, .FIVE, .SIX, .SEVEN, .EIGHT, .NINE, .TEN,
   .JACK, .QUEEN, .KING, .ACE]

/-- `Suit` enum. -/
inductive Suit where
  | HEARTS | DIAMONDS | CLUBS | SPADES
deriving DecidableEq, Repr

/-- Iteration order of the `Suit` enum (declaration order). -/
def suitList : List Suit := [.HEARTS, .DIAMONDS, .CLUBS, .SPADES]

/-- `Card`: frozen dataclass of (rank, suit); equality on both fields. -/
structure Card where
  rank : Rank
  suit : Suit
deriving DecidableEq, Repr

/-- A Python value, as needed to model the dynamic typing in `Card.__lt__`:
the enum member attribute `rank_value` is an `int`, while the enum member
attribute `value` is the whole declared tuple `(rank_value, symbol)`. -/
inductive PyVal where
  | int (n : Nat)
  | tuple (n : Nat) (s : Char)
deriving DecidableEq, Repr

/-- Python `Enum.value` of `Rank`: the members are declared as
`(rank_value, symbol)` tuples and `__init__` does not set `_value_`, so
`.value` is the whole tuple, not the integer ordinal. -/
def Rank.value (r : Rank) : PyVal := .tuple r.rank_value r.symbol

/-- Python `<` on dynamically typed values: defined for `int < int`,
raises `TypeError` when comparing `int` with `tuple`. -/
def pyLt : PyVal → PyVal → Except String Bool
  | .int a, .int b => .ok (decide (a < b))
  | _, _ => .error "TypeError: not supported between instances of int and tuple"

/-- `Card.__lt__` as written in the source:
`self.rank.rank_value < other.rank.value` — the left side is the `int`
ordinal, the right side is the enum member's tuple value. -/
def Card.lt (a b : Card) : Except String Bool :=
  pyLt (.int a.rank.rank_value) b.rank.value

/-! ### Deck (`src/core/deck.py`) -/

/-- The full 52-card deck produced by `Deck.reset`:
`[Card(rank, suit) for suit in Suit for rank in Rank]`. -/
def full52 : List Card :=
  suitList.flatMap (fun s => rankList.map (fun r => Card.mk r s))

/-- `Deck.deal(count)`: error when `count` exceeds the cards remaining,
otherwise return the first `count` cards and the remaining deck. -/
def Deck.deal (cards : List Card) (count : Nat) :
    Except String (List Card × List Card) :=
  if count > cards.length then
    .error "Not enough cards in deck"
  else
    .ok (cards.take count, cards.drop count)

/-- `Deck.remove_cards(cards)`: best-effort removal — for each requested
card, remove its first occurrence if present, else skip. -/
def removeCards (deck : List Card) (toRemove : List Card) : List Card :=
  toRemove.foldl (fun d c => if c ∈ d then d.erase c else d) deck

/-- Deck states reachable by any sequence of `reset`, `shuffle`, `deal`
(successful or failed) and `remove_cards` operations starting from
construction (`__init__` calls `reset`). `shuffle` is modelled as stepping
to an arbitrary permutation of the current cards. -/
inductive Reachable : List Card → Prop where
  | init : Reachable full52
  | reset {cs : List Card} : Reachable cs → Reachable full52
  | shuffle {cs cs' : List Card} : Reachable cs → cs'.Perm cs → Reachable cs'
  | deal {cs : List Card} (n : Nat) : Reachable cs → n ≤ cs.length →
      Reachable (cs.drop n)
  | dealFail {cs : List Card} (n : Nat) : Reachable cs → cs.length < n →
      Reachable cs
  | remove {cs : List Card} (toRemove : List Card) : Reachable cs →
      Reachable (removeCards cs toRemove)

/-! ### Card parsing (`src/core/deck.py`) -/

/-- Python whitespace characters recognized by `str.split()`. -/
def pyIsSpace (c : Char) : Bool :=
  c = ' ' || c = '\t' || c = '\n' || c = '\r' || c = '\x0b' || c = '\x0c'

/-- Python `str.split()` with no separator: split on runs of whitespace,
discarding empty tokens. `acc` holds the current token reversed. -/
def splitWsAux : List Char → List Char → List (List Char)
  | [], acc => if acc.isEmpty then [] else [acc.reverse]
  | c :: cs, acc =>
    if pyIsSpace c then
      if acc.isEmpty then splitWsAux cs [] else acc.reverse :: splitWsAux cs []
    else splitWsAux cs (c :: acc)

/-- Python `str.split()` over a string's characters. -/
def pySplit (s : String) : List (List Char) := splitWsAux s.data []

/-- `parse_card`: a card string must be exactly two characters, the first
(upper-cased) a rank symbol, the second (lower-cased) one of `h d c s`. -/
def parse_card (cs : List Char) : Except String Card :=
  match cs with
  | [r0, s0] =>
    let rank_str := r0.toUpper
    let suit_str := s0.toLower
    let suitOpt : Option Suit :=
      if suit_str = 'h' then some .HEARTS
      else if suit_str = 'd' then some .DIAMONDS
      else if suit_str = 'c' then some .CLUBS
      else if suit_str = 's' then some .SPADES
      else none
    match suitOpt with
    | none => .error ("Invalid suit: " ++ String.mk [suit_str])
    | some suit =>
      match rankList.find? (fun r => r.symbol = rank_str) with
      | none => .error ("Invalid rank: " ++ String.mk [rank_str])
      | some rank => .ok (Card.mk rank suit)
  | other => .error ("Invalid card string: " ++ String.mk other)

/-- `parse_cards`: split on whitespace and parse each token, propagating
the first failure (the list comprehension evaluates left to right). -/
def parse_cards (s : String) : Except String (List Card) :=
  (pySplit s).mapM parse_card

/-! ### Hand notation (`src/core/hand_eval.py`) -/

/-- `get_hand_notation`: standard starting-hand key; requires exactly two
cards, orders them by rank descending, pairs get no suffix, suited hands
get `s`, offsuit hands get `o`. -/
def get_hand_notation (holeCards : List Card) : Except String String :=
  match holeCards with
  | [a, b] =>
    let c1 := if a.rank.rank_value < b.rank.rank_value then b else a
    let c2 := if a.rank.rank_value < b.rank.rank_value then a else b
    let nota := String.mk [c1.rank.symbol, c2.rank.symbol]
    if c1.rank = c2.rank then .ok nota
    else if c1.suit = c2.suit then .ok (nota.push 's')
    else .ok (nota.push 'o')
  | _ => .error "Must provide exactly 2 hole cards"

/-! ### Hand strength evaluator (`src/core/hand_eval.py`) -/

/-- `HandRank` enum with ordinal `rank_value` 1–10. -/
inductive HandRank where
  | HIGH_CARD | ONE_PAIR | TWO_PAIR | THREE_OF_A_KIND | STRAIGHT | FLUSH
  | FULL_HOUSE | FOUR_OF_A_KIND | STRAIGHT_FLUSH | ROYAL_FLUSH
deriving DecidableEq, Repr

/-- `HandRank.rank_value`. -/
def HandRank.rank_value : HandRank → Nat
  | .HIGH_CARD => 1 | .ONE_PAIR => 2 | .TWO_PAIR => 3 | .THREE_OF_A_KIND => 4
  | .STRAIGHT => 5 | .FLUSH => 6 | .FULL_HOUSE => 7 | .FOUR_OF_A_KIND => 8
  | .STRAIGHT_FLUSH => 9 | .ROYAL_FLUSH => 10

/-- `HandStrength`: a hand rank plus an ordered tiebreaker vector. -/
structure HandStrength where
  rank : HandRank
  tiebreakers : List Nat
deriving DecidableEq, Repr

/-- The tiebreaker loop of `HandStrength.__lt__`: walk the zipped
tiebreaker lists, decide at the first differing entry, `False` when the
zip is exhausted without a difference. -/
def lexLt : List Nat → List Nat → Bool
  | a :: as, b :: bs => if a ≠ b then decide (a < b) else lexLt as bs
  | _, _ => false

/-- `HandStrength.__lt__`: primary by `rank_value`, then the tiebreaker
loop. (`strength > best` in the source resolves to `best.__lt__(strength)`.) -/
def hsLt (a b : HandStrength) : Bool :=
  if a.rank.rank_value ≠ b.rank.rank_value then
    decide (a.rank.rank_value < b.rank.rank_value)
  else lexLt a.tiebreakers b.tiebreakers

/-- The `rank_value`s of a list of cards (before sorting). -/
def rankVals (cs : List Card) : List Nat :=
  cs.map (fun c => c.rank.rank_value)

/-- `sorted(l, reverse=True)`. -/
def sortDesc (l : List Nat) : List Nat :=
  List.insertionSort (· ≥ ·) l

/-- The distinct ranks of the hand whose `Counter` count equals `k`
(the comprehensions `[r for r, count in rank_counts.items() if count == k]`). -/
def ranksWithCount (cs : List Card) (k : Nat) : List Nat :=
  (rankVals cs).dedup.filter (fun r => (rankVals cs).count r = k)

/-- `len(set(suits)) == 1`. -/
def isFlushB (cs : List Card) : Bool :=
  (cs.map (fun c => c.suit)).dedup.length = 1

/-- `_check_straight`: dedup the ranks, sort descending; a straight when
five distinct ranks span exactly 4, or the wheel `[14, 5, 4, 3, 2]`. -/
def checkStraight (ranks : List Nat) : Bool :=
  let sorted_ranks := sortDesc ranks.dedup
  if sorted_ranks.length < 5 then false
  else if sorted_ranks.getD 0 0 - sorted_ranks.getD 4 0 = 4 then true
  else if sorted_ranks = [14, 5, 4, 3, 2] then true
  else false

/-- `_evaluate_five_cards`: classify exactly five cards. -/
def _evaluate_five_cards (cs : List Card) : HandStrength :=
  let ranks := sortDesc (rankVals cs)
  let is_flush := isFlushB cs
  let is_straight := checkStraight (rankVals cs)
  if is_flush ∧ is_straight ∧ ranks.getD 0 0 = 14 then
    ⟨.ROYAL_FLUSH, ranks⟩
  else if is_flush ∧ is_straight then
    ⟨.STRAIGHT_FLUSH, ranks⟩
  else if ranksWithCount cs 4 ≠ [] then
    ⟨.FOUR_OF_A_KIND, [(ranksWithCount cs 4).headD 0, (ranksWithCount cs 1).headD 0]⟩
  else if ranksWithCount cs 3 ≠ [] ∧ ranksWithCount cs 2 ≠ [] then
    ⟨.FULL_HOUSE, [(ranksWithCount cs 3).headD 0, (ranksWithCount cs 2).headD 0]⟩
  else if is_flush then
    ⟨.FLUSH, ranks⟩
  else if is_straight then
    ⟨.STRAIGHT, ranks⟩
  else if ranksWithCount cs 3 ≠ [] then
    ⟨.THREE_OF_A_KIND, (ranksWithCount cs 3).headD 0 :: sortDesc (ranksWithCount cs 1)⟩
  else
    let pairs := sortDesc (ranksWithCount cs 2)
    if pairs.length = 2 then
      ⟨.TWO_PAIR, pairs ++ [(ranksWithCount cs 1).headD 0]⟩
    else if pairs.length = 1 then
      ⟨.ONE_PAIR, pairs ++ sortDesc (ranksWithCount cs 1)⟩
    else
      ⟨.HIGH_CARD, ranks⟩

/-- One iteration of the best-of-subsets loop in `evaluate_hand`: keep the
current strength unless the new one is strictly greater. -/
def bestStep (best : Option HandStrength) (combo : List Card) :
    Option HandStrength :=
  let strength := _evaluate_five_cards combo
  match best with
  | none => some strength
  | some b => if hsLt b strength then some strength else some b

/-- The best-of-subsets loop in `evaluate_hand`. -/
def bestOf (combos : List (List Card)) : Option HandStrength :=
  combos.foldl bestStep none

/-- `evaluate_hand`: 5–7 cards; for 6 or 7 cards take the best strength
over all 5-card combinations. -/
def evaluate_hand (cards : List Card) : Except String HandStrength :=
  if ¬ (5 ≤ cards.length ∧ cards.length ≤ 7) then
    .error "Must evaluate 5-7 cards"
  else if cards.length = 7 then
    match bestOf (List.sublistsLen 5 cards) with
    | some best => .ok best
    | none => .error "no combinations"
  else if cards.length = 6 then
    match bestOf (List.sublistsLen 5 cards) with
    | some best => .ok best
    | none => .error "no combinations"
  else
    .ok (_evaluate_five_cards cards)

/-! ### Positions (`src/core/positions.py`) -/

/-- `Position` enum: the nine seats. -/
inductive Position where
  | UTG | UTG1 | UTG2 | MP | MP1 | CO | BTN | SB | BB
deriving DecidableEq, Repr

/-- `Position.abbr`, used by `__str__`. -/
def Position.abbr : Position → String
  | .UTG => "UTG" | .UTG1 => "UTG+1" | .UTG2 => "UTG+2"
  | .MP => "MP" | .MP1 => "MP+1" | .CO => "CO" | .BTN => "BTN"
  | .SB => "SB" | .BB => "BB"

/-! ### Range and tier theory (`src/grading/theory.py`) -/

/-- `OPENING_RANGES`: position-indexed sets of hand notations. Every
position has an entry, so the `.get(position, set())` default is never
taken. -/
def OPENING_RANGES : Position → List String
  | .UTG =>
    ["AA", "KK", "QQ", "JJ", "TT", "99",
     "AKs", "AQs", "AJs", "ATs",
     "AKo", "AQo",
     "KQs", "KJs"]
  | .UTG1 =>
    ["AA", "KK", "QQ", "JJ", "TT", "99", "88",
     "AKs", "AQs", "AJs", "ATs", "A9s",
     "AKo", "AQo", "AJo",
     "KQs", "KJs", "KTs",
     "QJs"]
  | .UTG2 =>
    ["AA", "KK", "QQ", "JJ", "TT", "99", "88", "77",
     "AKs", "AQs", "AJs", "ATs", "A9s", "A8s",
     "AKo", "AQo", "AJo",
     "KQs", "KJs", "KTs",
     "QJs", "QTs",
     "JTs"]
  | .MP =>
    ["AA", "KK", "QQ", "JJ", "TT", "99", "88", "77", "66",
     "AKs", "AQs", "AJs", "ATs", "A9s", "A8s", "A7s", "A5s",
     "AKo", "AQo", "AJo", "ATo",
     "KQs", "KJs", "KTs", "K9s",
     "QJs", "QTs",
     "JTs", "J9s",
     "T9s"]
  | .MP1 =>
    ["AA", "KK", "QQ", "JJ", "TT", "99", "88", "77", "66", "55",
     "AKs", "AQs", "AJs", "ATs", "A9s", "A8s", "A7s", "A6s", "A5s", "A4s",
     "AKo", "AQo", "AJo", "ATo",
     "KQs", "KJs", "KTs", "K9s",
     "QJs", "QTs", "Q9s",
     "JTs", "J9s",
     "T9s", "T8s",
     "98s"]
  | .CO =>
    ["AA", "KK", "QQ", "JJ", "TT", "99", "88", "77", "66", "55", "44", "33", "22",
     "AKs", "AQs", "AJs", "ATs", "A9s", "A8s", "A7s", "A6s", "A5s", "A4s", "A3s", "A2s",
     "AKo", "AQo", "AJo", "ATo", "A9o",
     "KQs", "KJs", "KTs", "K9s", "K8s",
     "KQo", "KJo",
     "QJs", "QTs", "Q9s",
     "JTs", "J9s", "J8s",
     "T9s", "T8s",
     "98s", "97s",
     "87s"]
  | .BTN =>
    ["AA", "KK", "QQ", "JJ", "TT", "99", "88", "77", "66", "55", "44", "33", "22",
     "AKs", "AQs", "AJs", "ATs", "A9s", "A8s", "A7s", "A6s", "A5s", "A4s", "A3s", "A2s",
     "AKo", "AQo", "AJo", "ATo", "A9o", "A8o", "A7o", "A6o", "A5o",
     "KQs", "KJs", "KTs", "K9s", "K8s", "K7s", "K6s", "K5s",
     "KQo", "KJo", "KTo", "K9o",
     "QJs", "QTs", "Q9s", "Q8s", "Q7s",
     "QJo", "QTo",
     "JTs", "J9s", "J8s", "J7s",
     "JTo", "J9o",
     "T9s", "T8s", "T7s",
     "T9o",
     "98s", "97s", "96s",
     "98o",
     "87s", "86s",
     "76s",
     "65s"]
  | .SB =>
    ["AA", "KK", "QQ", "JJ", "TT", "99", "88", "77", "66", "55", "44", "33", "22",
     "AKs", "AQs", "AJs", "ATs", "A9s", "A8s", "A7s", "A6s", "A5s", "A4s", "A3s", "A2s",
     "AKo", "AQo", "AJo", "ATo", "A9o",
     "KQs", "KJs", "KTs", "K9s",
     "KQo", "KJo",
     "QJs", "QTs", "Q9s",
     "JTs", "J9s",
     "T9s", "T8s",
     "98s",
     "87s"]
  | .BB =>
    ["AA", "KK", "QQ", "JJ", "TT", "99", "88", "77", "66", "55", "44", "33", "22",
     "AKs", "AQs", "AJs", "ATs", "A9s", "A8s", "A7s", "A6s", "A5s", "A4s", "A3s", "A2s",
     "AKo", "AQo", "AJo", "ATo", "A9o",
     "KQs", "KJs", "KTs", "K9s",
     "KQo", "KJo",
     "QJs", "QTs", "Q9s",
     "JTs", "J9s",
     "T9s", "T8s",
     "98s",
     "87s"]

/-- `is_in_opening_range(hand_notation, position)`. -/
def is_in_opening_range (hn : String) (position : Position) : Bool :=
  decide (hn ∈ OPENING_RANGES position)

/-- `get_hand_strength_tier`: tiers 1–4 are static tables, everything
else is tier 5. -/
def get_hand_strength_tier (hn : String) : Nat :=
  let tier1 : List String := ["AA", "KK", "QQ", "AKs", "AKo"]
  let tier2 : List String := ["JJ", "TT", "99", "AQs", "AJs", "AQo", "KQs", "AJo"]
  let tier3 : List String :=
    ["88", "77", "66", "55",
     "ATs", "A9s", "A8s",
     "KJs", "KTs", "KQo",
     "QJs", "QTs",
     "JTs"]
  let tier4 : List String :=
    ["44", "33", "22",
     "A7s", "A6s", "A5s", "A4s", "A3s", "A2s",
     "ATo", "A9o",
     "K9s", "K8s",
     "KJo", "KTo",
     "Q9s", "QJo",
     "J9s", "JTo",
     "T9s", "T8s",
     "98s", "97s",
     "87s", "86s",
     "76s", "75s",
     "65s"]
  if hn ∈ tier1 then 1
  else if hn ∈ tier2 then 2
  else if hn ∈ tier3 then 3
  else if hn ∈ tier4 then 4
  else 5

/-- `calculate_pot_odds(pot_size, bet_to_call)`: `0` when there is nothing
to call, else `bet / (pot + bet)`. -/
def calculate_pot_odds (pot_size : ℚ) (bet_to_call : ℚ) : ℚ :=
  if bet_to_call = 0 then 0
  else bet_to_call / (pot_size + bet_to_call)

/-! ### Scenarios (`src/scenarios/scenario.py`) -/

/-- `Action` enum. -/
inductive Action where
  | FOLD | CHECK | CALL | BET | RAISE | ALL_IN
deriving DecidableEq, Repr

/-- `Street` enum. -/
inductive Street where
  | PREFLOP | FLOP | TURN | RIVER
deriving DecidableEq, Repr

/-- `PlayerAction` dataclass. -/
structure PlayerAction where
  position : Position
  action : Action
  amount : Option ℚ := none
deriving DecidableEq, Repr

/-- `Scenario` dataclass: the game-state fields consumed by the grading
engine (identification/metadata fields are irrelevant to evaluation). -/
structure Scenario where
  street : Street := .PREFLOP
  hero_position : Position := .BTN
  hero_cards : List Card := []
  board_cards : List Card := []
  action_history : List PlayerAction := []
  pot_size : ℚ := 3/2
  current_bet : ℚ := 0
deriving Repr

/-! ### Decision grading engine (`src/grading/evaluator.py`) -/

/-- `Grade` enum. -/
inductive Grade where
  | EXCELLENT | GOOD | INACCURATE | MISTAKE | BLUNDER
deriving DecidableEq, Repr

/-- `Grade.grade_value`. -/
def Grade.grade_value : Grade → Nat
  | .EXCELLENT => 5 | .GOOD => 4 | .INACCURATE => 3 | .MISTAKE => 2 | .BLUNDER => 1

/-- `DecisionEvaluation` dataclass (its `alternative_actions` default map
stays empty in every branch of the evaluator). -/
structure DecisionEvaluation where
  chosen_action : Action
  grade : Grade
  best_action : Action
  explanation : String
deriving DecidableEq, Repr

/-- `_get_opening_explanation` (product copy). -/
def getOpeningExplanation (hn : String) (position : Position)
    (in_range : Bool) (hand_tier : Nat) (is_correct : Bool) : String :=
  if is_correct && in_range then
    let tierDesc :=
      if hand_tier = 1 then "a premium hand"
      else if hand_tier = 2 then "a strong hand"
      else if hand_tier = 3 then "a playable hand"
      else if hand_tier = 4 then "a marginal hand"
      else "playable"
    "Excellent! " ++ hn ++ " is " ++ tierDesc ++ " and should be raised from "
      ++ position.abbr ++ "."
  else if is_correct && !in_range then
    "Correct fold. " ++ hn ++ " is too weak to open from " ++ position.abbr ++ "."
  else
    "Unexpected action."

/-- `DecisionEvaluator._evaluate_opening`: grading when no one has acted. -/
def evaluateOpening (chosen_action : Action) (hn : String)
    (position : Position) (in_range : Bool) (hand_tier : Nat) :
    DecisionEvaluation :=
  let best_action := if in_range then Action.RAISE else Action.FOLD
  if chosen_action = best_action then
    { chosen_action := chosen_action, grade := .EXCELLENT, best_action := best_action,
      explanation := getOpeningExplanation hn position in_range hand_tier true }
  else if chosen_action = Action.RAISE ∧ ¬in_range then
    if hand_tier ≤ 3 then
      { chosen_action := chosen_action, grade := .INACCURATE, best_action := best_action,
        explanation := hn ++ " is marginal from " ++ position.abbr
          ++ ". Folding is more standard, but raising can work." }
    else
      { chosen_action := chosen_action, grade := .MISTAKE, best_action := best_action,
        explanation := hn ++ " is too weak to raise from " ++ position.abbr
          ++ ". This hand should be folded." }
  else if chosen_action = Action.FOLD ∧ in_range then
    if hand_tier = 1 then
      { chosen_action := chosen_action, grade := .BLUNDER, best_action := best_action,
        explanation := "Folding " ++ hn
          ++ " is a serious mistake! This is a premium hand that should always be raised." }
    else if hand_tier = 2 then
      { chosen_action := chosen_action, grade := .MISTAKE, best_action := best_action,
        explanation := hn ++ " is a strong hand that should be raised from "
          ++ position.abbr ++ "." }
    else
      { chosen_action := chosen_action, grade := .INACCURATE, best_action := best_action,
        explanation := hn ++ " should be raised from " ++ position.abbr
          ++ ", though it is not a critical error to fold." }
  else if chosen_action = Action.CALL then
    { chosen_action := chosen_action, grade := .MISTAKE, best_action := best_action,
      explanation := "Limping (just calling) is generally weak play. You should either raise or fold." }
  else
    { chosen_action := chosen_action, grade := .MISTAKE, best_action := best_action,
      explanation := "Unexpected action for this situation." }

/-- `DecisionEvaluator._evaluate_facing_raise`: grading when facing
aggression, branched on the hand's tier (the numeric rendering of pot odds
inside one explanation string is elided — product copy, not contract). -/
def evaluateFacingRaise (scenario : Scenario) (chosen_action : Action)
    (hn : String) (hand_tier : Nat) : DecisionEvaluation :=
  let pot_odds := calculate_pot_odds scenario.pot_size scenario.current_bet
  if hand_tier = 1 then
    if chosen_action = Action.RAISE then
      { chosen_action := chosen_action, grade := .EXCELLENT, best_action := .RAISE,
        explanation := hn ++ " is premium. Re-raising is the best play." }
    else if chosen_action = Action.CALL then
      { chosen_action := chosen_action, grade := .GOOD, best_action := .RAISE,
        explanation := "Calling with " ++ hn
          ++ " is acceptable, though re-raising is more aggressive." }
    else
      { chosen_action := chosen_action, grade := .BLUNDER, best_action := .RAISE,
        explanation := "Never fold " ++ hn
          ++ " to a single raise! This is a premium hand." }
  else if hand_tier = 2 then
    if chosen_action = Action.CALL ∨ chosen_action = Action.RAISE then
      { chosen_action := chosen_action,
        grade := if chosen_action = Action.CALL then .EXCELLENT else .GOOD,
        best_action := .CALL,
        explanation := hn ++ " is strong enough to continue." }
    else
      { chosen_action := chosen_action, grade := .MISTAKE, best_action := .CALL,
        explanation := hn ++ " is too strong to fold to a single raise." }
  else if hand_tier = 3 then
    if pot_odds < 0.25 then
      if chosen_action = Action.CALL then
        { chosen_action := chosen_action, grade := .GOOD, best_action := .CALL,
          explanation := hn ++ " can call with good pot odds." }
      else if chosen_action = Action.FOLD then
        { chosen_action := chosen_action, grade := .INACCURATE, best_action := .CALL,
          explanation := "Folding is acceptable but you are getting good odds to call." }
      else
        { chosen_action := chosen_action, grade := .INACCURATE, best_action := .CALL,
          explanation := "Re-raising " ++ hn ++ " is aggressive but can work." }
    else
      if chosen_action = Action.FOLD then
        { chosen_action := chosen_action, grade := .EXCELLENT, best_action := .FOLD,
          explanation := hn ++ " is marginal. Folding is correct with poor odds." }
      else
        { chosen_action := chosen_action, grade := .INACCURATE, best_action := .FOLD,
          explanation := "Calling is loose here, but not terrible." }
  else
    if chosen_action = Action.FOLD then
      { chosen_action := chosen_action, grade := .EXCELLENT, best_action := .FOLD,
        explanation := hn ++ " is too weak to continue. Easy fold." }
    else
      { chosen_action := chosen_action, grade := .MISTAKE, best_action := .FOLD,
        explanation := hn ++ " is not strong enough to call a raise." }

/-- `DecisionEvaluator._evaluate_preflop`: derive notation, range
membership and tier, then dispatch on the opening-vs-facing-aggression
regime (`action_history` empty and `current_bet` zero). -/
def evaluatePreflop (scenario : Scenario) (chosen_action : Action) :
    Except String DecisionEvaluation := do
  let hn ← get_hand_notation scenario.hero_cards
  let position := scenario.hero_position
  let in_range := is_in_opening_range hn position
  let hand_tier := get_hand_strength_tier hn
  let is_opening :=
    scenario.action_history.length = 0 ∧ scenario.current_bet = 0
  if is_opening then
    return evaluateOpening chosen_action hn position in_range hand_tier
  else
    return evaluateFacingRaise scenario chosen_action hn hand_tier

/-- `DecisionEvaluator._evaluate_postflop`: an explicit stub. -/
def evaluatePostflop (chosen_action : Action) : DecisionEvaluation :=
  { chosen_action := chosen_action, grade := .GOOD, best_action := chosen_action,
    explanation := "Post-flop analysis is simplified for now. Full evaluation coming soon." }

/-- `DecisionEvaluator.evaluate_decision`. -/
def evaluate_decision (scenario : Scenario) (chosen_action : Action) :
    Except String DecisionEvaluation :=
  if scenario.street = Street.PREFLOP then
    evaluatePreflop scenario chosen_action
  else
    .ok (evaluatePostflop chosen_action)

/-! ### Spec-side definitions used in refinement statements -/

/-- The starting-hand notation as the specification describes it: order the
two cards by rank descending; equal ranks give the two rank symbols with no
suffix; equal suits append `s`; otherwise append `o`. -/
def specNotation (a b : Card) : String :=
  let hi := if b.rank.rank_value > a.rank.rank_value then b else a
  let lo := if b.rank.rank_value > a.rank.rank_value then a else b
  if hi.rank = lo.rank then String.mk [hi.rank.symbol, lo.rank.symbol]
  else if hi.suit = lo.suit then String.mk [hi.rank.symbol, lo.rank.symbol, 's']
  else String.mk [hi.rank.symbol, lo.rank.symbol, 'o']

/-- The tiebreaker length each hand category actually produces:
2 for quads and full houses, 3 for two pair and three of a kind,
4 for one pair, 5 otherwise. -/
def tieLen : HandRank → Nat
  | .FOUR_OF_A_KIND => 2
  | .FULL_HOUSE => 2
  | .TWO_PAIR => 3
  | .THREE_OF_A_KIND => 3
  | .ONE_PAIR => 4
  | _ => 5

/-- A well-formed strength: the tiebreaker vector has the length its
category mandates. -/
def WfStrength (hs : HandStrength) : Prop :=
  hs.tiebreakers.length = tieLen hs.rank

/-! ## Theorems -/

/-! ### C5 — pot odds -/

/-- C5 (counterexample): the claim asserts the returned value always lies
in `[0, 1)`, but with a zero pot and a bet of 5 the function returns
exactly 1. -/
theorem calculate_pot_odds_one_counterexample :
    calculate_pot_odds 0 5 = 1 ∧ ¬ calculate_pot_odds 0 5 < 1 := by
  constructor
  · norm_num [calculate_pot_odds]
  · norm_num [calculate_pot_odds]

/-- C5 (amended): for non-negative pot and bet, `calculate_pot_odds`
returns 0 when the bet is 0 and `bet / (pot + bet)` otherwise; the value
lies in `[0, 1]`, and it is strictly below 1 whenever the pot is
positive (with a zero pot and a positive bet it equals exactly 1). -/
theorem calculate_pot_odds_range (pot call : ℚ)
    (hpot : 0 ≤ pot) (hcall : 0 ≤ call) :
    calculate_pot_odds pot call
        = (if call = 0 then 0 else call / (pot + call)) ∧
      0 ≤ calculate_pot_odds pot call ∧
      calculate_pot_odds pot call ≤ 1 ∧
      (0 < pot → calculate_pot_odds pot call < 1) := by
  refine ⟨rfl, ?_, ?_, ?_⟩ <;> unfold calculate_pot_odds
  · split
    · norm_num
    · next hne =>
      have hc : 0 < call := lt_of_le_of_ne hcall (Ne.symm hne)
      positivity
  · split
    · norm_num
    · next hne =>
      have hc : 0 < call := lt_of_le_of_ne hcall (Ne.symm hne)
      rw [div_le_one (by linarith)]
      linarith
  · intro hp
    split
    · norm_num
    · next hne =>
      have hc : 0 < call := lt_of_le_of_ne hcall (Ne.symm hne)
      rw [div_lt_one (by linarith)]
      linarith

/-- C5 (witness): the amended theorem applied at pot 10, bet 5. -/
theorem calculate_pot_odds_range_witness :
    calculate_pot_odds 10 5
        = (if (5 : ℚ) = 0 then 0 else 5 / (10 + 5)) ∧
      0 ≤ calculate_pot_odds 10 5 ∧
      calculate_pot_odds 10 5 ≤ 1 ∧
      ((0 : ℚ) < 10 → calculate_pot_odds 10 5 < 1) :=
  calculate_pot_odds_range 10 5 (by norm_num) (by norm_num)

/-! ### C6 — `Card.__lt__` -/

/-- C6: `Card.__lt__` compares the `int` field `rank_value` of the left
card's rank against the right card's `rank.value`, which is the enum's
tuple value `(rank_value, symbol)`; Python's `int < tuple` raises
`TypeError`, so the comparison fails for every pair of cards — contrary to
the claim (and the method's own docstring) that cards compare by rank
ordinal and the comparison never fails. -/
theorem card_lt_always_raises (a b : Card) :
    Card.lt a b
      = .error "TypeError: not supported between instances of int and tuple" :=
  rfl

/-! ### C8 — `Deck.deal` -/

/-- C8: `deal` fails exactly when the request exceeds the cards remaining;
on success it returns the first `count` cards in order and leaves the rest
in order (the two parts reassemble to the original deck); the failing
branch raises before any mutation, so the deck is unchanged on failure. -/
theorem deal_spec (cards : List Card) (count : Nat) :
    ((∃ e, Deck.deal cards count = .error e) ↔ cards.length < count) ∧
      (count ≤ cards.length →
        Deck.deal cards count = .ok (cards.take count, cards.drop count) ∧
          (cards.take count).length = count ∧
          cards.take count ++ cards.drop count = cards) := by
  unfold Deck.deal
  by_cases h : count > cards.length
  · rw [if_pos h]
    exact ⟨⟨fun _ => h, fun _ => ⟨_, rfl⟩⟩, fun hle => absurd h (by omega)⟩
  · rw [if_neg h]
    refine ⟨⟨?_, fun hlt => absurd hlt h⟩,
      fun hle => ⟨rfl, ?_, List.take_append_drop _ _⟩⟩
    · rintro ⟨e, he⟩
      exact Except.noConfusion he
    · simp only [List.length_take]
      omega

/-- C8 (witness): dealing 5 from the full deck succeeds with the first
five cards and the remaining 47 in order. -/
theorem deal_spec_witness :
    Deck.deal full52 5 = .ok (full52.take 5, full52.drop 5) ∧
      (full52.take 5).length = 5 ∧
      full52.take 5 ++ full52.drop 5 = full52 :=
  (deal_spec full52 5).2 (by decide)

/-! ### C9 — deck invariant -/

/-- Every card is one of the 52 produced by `reset`. -/
theorem mem_full52 (c : Card) : c ∈ full52 := by
  obtain ⟨r, s⟩ := c
  cases r <;> cases s <;> decide

/-- The freshly reset deck holds no duplicates. -/
theorem nodup_full52 : full52.Nodup := by decide

/-- `remove_cards` preserves distinctness and removes no card that was
not already present. -/
theorem removeCards_nodup_subset (toRemove : List Card) :
    ∀ deck : List Card, deck.Nodup →
      (removeCards deck toRemove).Nodup ∧ removeCards deck toRemove ⊆ deck := by
  induction toRemove with
  | nil => exact fun deck h => ⟨h, fun _ hc => hc⟩
  | cons c cs ih =>
    intro deck h
    simp only [removeCards, List.foldl_cons] at *
    by_cases hc : c ∈ deck
    · rw [if_pos hc]
      obtain ⟨h1, h2⟩ := ih (deck.erase c) (h.erase c)
      exact ⟨h1, fun x hx => List.erase_subset _ _ (h2 hx)⟩
    · rw [if_neg hc]
      exact ih deck h
/-- C9: along every sequence of `reset`, `shuffle`, `deal` and
`remove_cards` operations from construction, the deck never holds two
equal cards and stays inside the 52-card universe. -/
theorem deck_invariant (cs : List Card) (h : Reachable cs) :
    cs.Nodup ∧ ∀ c ∈ cs, c ∈ full52 := by
  induction h with
  | init => exact ⟨nodup_full52, fun c _ => mem_full52 c⟩
  | reset _ _ => exact ⟨nodup_full52, fun c _ => mem_full52 c⟩
  | shuffle _ hperm ih =>
    exact ⟨hperm.nodup_iff.mpr ih.1, fun c hc => ih.2 c (hperm.subset hc)⟩
  | deal n _ _ ih =>
    exact ⟨(List.drop_sublist n _).nodup ih.1,
      fun c hc => ih.2 c (List.mem_of_mem_drop hc)⟩
  | dealFail n _ _ ih => exact ih
  | remove toRemove _ ih =>
    obtain ⟨h1, h2⟩ := removeCards_nodup_subset toRemove _ ih.1
    exact ⟨h1, fun c hc => ih.2 c (h2 hc)⟩

/-- C9 (witness): the invariant holds of the freshly constructed deck. -/
theorem deck_invariant_witness :
    full52.Nodup ∧ ∀ c ∈ full52, c ∈ full52 :=
  deck_invariant full52 .init

/-! ### C7 — hand notation -/

/-- Equal rank ordinals come from the same rank. -/
theorem rank_value_inj (r s : Rank) (h : r.rank_value = s.rank_value) : r = s := by
  cases r <;> cases s <;> first | rfl | exact absurd h (by decide)

/-- `get_hand_notation` on any two cards returns the spec-described
notation of the pair. -/
theorem notation_pair (a b : Card) :
    get_hand_notation [a, b] = .ok (specNotation a b) := by
  rcases Nat.lt_trichotomy a.rank.rank_value b.rank.rank_value with h | h | h
  · simp only [ get_hand_notation, specNotation, h, Nat.not_lt_of_lt h, gt_iff_lt,
      if_true, if_false, ite_true, ite_false]
    split_ifs <;> simp [String.push]
  · have hrank : a.rank = b.rank := rank_value_inj _ _ h
    simp [ get_hand_notation, specNotation, h.not_lt, h.symm.not_lt, gt_iff_lt, hrank]
  · simp only [ get_hand_notation, specNotation, h, Nat.not_lt_of_lt h, gt_iff_lt,
      if_true, if_false, ite_true, ite_false]
    split_ifs <;> simp [String.push]

/-- The spec-described notation does not depend on the order of the pair. -/
theorem specNotation_comm (a b : Card) : specNotation b a = specNotation a b := by
  rcases Nat.lt_trichotomy a.rank.rank_value b.rank.rank_value with h | h | h
  · simp [specNotation, h, Nat.not_lt_of_lt h, gt_iff_lt]
  · have hrank : a.rank = b.rank := rank_value_inj _ _ h
    have hsym : a.rank.symbol = b.rank.symbol := by rw [hrank]
    simp [specNotation, h.not_lt, h.symm.not_lt, gt_iff_lt, hrank, hsym]
  · simp [specNotation, h, Nat.not_lt_of_lt h, gt_iff_lt]

/-- `get_hand_notation` rejects any list that is not exactly two cards. -/
theorem notation_bad_length (l : List Card) (hl : l.length ≠ 2) :
    ∃ e, get_hand_notation l = .error e := by
  match l with
  | [] => exact ⟨_, rfl⟩
  | [x] => exact ⟨_, rfl⟩
  | [x, y] => exact absurd rfl hl
  | x :: y :: z :: t => exact ⟨_, rfl⟩

/-- C7: on any two distinct cards, `get_hand_notation` produces the
notation described by the spec (higher rank first, no suffix for pairs,
`s` for suited, `o` for offsuit), the result does not depend on the order
of the two cards, and any list that does not hold exactly two cards is
rejected. -/
theorem hand_notation_spec (a b : Card) (hab : a ≠ b) :
    get_hand_notation [a, b] = .ok (specNotation a b) ∧
      get_hand_notation [b, a] = .ok (specNotation a b) ∧
      ∀ l : List Card, l.length ≠ 2 → ∃ e, get_hand_notation l = .error e :=
  ⟨notation_pair a b, by rw [notation_pair b a, specNotation_comm],
    notation_bad_length⟩

/-- C7 (witness): the theorem applied to the ace of spades and ace of
diamonds (a pocket pair). -/
theorem hand_notation_spec_witness :
    get_hand_notation [⟨.ACE, .SPADES⟩, ⟨.ACE, .DIAMONDS⟩]
        = .ok (specNotation ⟨.ACE, .SPADES⟩ ⟨.ACE, .DIAMONDS⟩) ∧
      get_hand_notation [⟨.ACE, .DIAMONDS⟩, ⟨.ACE, .SPADES⟩]
        = .ok (specNotation ⟨.ACE, .SPADES⟩ ⟨.ACE, .DIAMONDS⟩) ∧
      ∀ l : List Card, l.length ≠ 2 → ∃ e, get_hand_notation l = .error e :=
  hand_notation_spec ⟨.ACE, .SPADES⟩ ⟨.ACE, .DIAMONDS⟩ (by decide)

/-! ### C1 — opening regime grading -/

/-- The grading table of `_evaluate_opening`, spelled out per chosen
action, range membership and tier. -/
theorem evaluateOpening_table (chosen : Action) (hn : String)
    (pos : Position) (in_range : Bool) (tier : Nat) :
    (evaluateOpening chosen hn pos in_range tier).best_action
        = (if in_range then Action.RAISE else Action.FOLD) ∧
      (chosen = (if in_range then Action.RAISE else Action.FOLD) →
        (evaluateOpening chosen hn pos in_range tier).grade = .EXCELLENT) ∧
      (chosen = .RAISE → in_range = false →
        (tier ≤ 3 →
          (evaluateOpening chosen hn pos in_range tier).grade = .INACCURATE) ∧
        (4 ≤ tier →
          (evaluateOpening chosen hn pos in_range tier).grade = .MISTAKE)) ∧
      (chosen = .FOLD → in_range = true →
        (tier = 1 →
          (evaluateOpening chosen hn pos in_range tier).grade = .BLUNDER) ∧
        (tier = 2 →
          (evaluateOpening chosen hn pos in_range tier).grade = .MISTAKE) ∧
        (tier = 3 ∨ tier = 4 →
          (evaluateOpening chosen hn pos in_range tier).grade = .INACCURATE)) ∧
      (chosen = .CALL →
        (evaluateOpening chosen hn pos in_range tier).grade = .MISTAKE) ∧
      (chosen = .CHECK ∨ chosen = .BET ∨ chosen = .ALL_IN →
        (evaluateOpening chosen hn pos in_range tier).grade = .MISTAKE) := by
  cases in_range <;> cases chosen <;>
    simp only [evaluateOpening, apply_ite DecisionEvaluation.best_action,
      apply_ite DecisionEvaluation.grade, reduceCtorEq, Bool.true_eq_false,
      Bool.false_eq_true, not_false_eq_true, not_true_eq_false, and_true,
      and_false, and_self, true_and, false_and, if_true, if_false, ite_true,
      ite_false, ite_self, false_implies, true_implies, implies_true,
      or_self, or_false, false_or, iff_true, iff_false, not_false_iff] <;>
    (repeat' apply And.intro) <;>
    intros <;>
    split_ifs <;>
    first
      | rfl
      | omega

/-- C1: in the opening regime (empty action history, zero current bet,
preflop), the best action is raise exactly when the hand's notation is in
the position's opening range, and the grades follow the opening decision
table of the claim. -/
theorem opening_regime_grading (scenario : Scenario) (chosen : Action)
    (a b : Card)
    (hcards : scenario.hero_cards = [a, b])
    (hstreet : scenario.street = .PREFLOP)
    (hhist : scenario.action_history = [])
    (hbet : scenario.current_bet = 0) :
    ∃ ev, evaluate_decision scenario chosen = .ok ev ∧
      (ev.best_action
          = if is_in_opening_range (specNotation a b) scenario.hero_position
            then Action.RAISE else Action.FOLD) ∧
      (chosen = ev.best_action → ev.grade = .EXCELLENT) ∧
      (chosen = .RAISE →
        is_in_opening_range (specNotation a b) scenario.hero_position = false →
        (get_hand_strength_tier (specNotation a b) ≤ 3 → ev.grade = .INACCURATE) ∧
        (4 ≤ get_hand_strength_tier (specNotation a b) → ev.grade = .MISTAKE)) ∧
      (chosen = .FOLD →
        is_in_opening_range (specNotation a b) scenario.hero_position = true →
        (get_hand_strength_tier (specNotation a b) = 1 → ev.grade = .BLUNDER) ∧
        (get_hand_strength_tier (specNotation a b) = 2 → ev.grade = .MISTAKE) ∧
        (get_hand_strength_tier (specNotation a b) = 3 ∨
            get_hand_strength_tier (specNotation a b) = 4 →
          ev.grade = .INACCURATE)) ∧
      (chosen = .CALL → ev.grade = .MISTAKE) ∧
      (chosen = .CHECK ∨ chosen = .BET ∨ chosen = .ALL_IN →
        ev.grade = .MISTAKE) := by
  refine ⟨evaluateOpening chosen (specNotation a b) scenario.hero_position
    (is_in_opening_range (specNotation a b) scenario.hero_position)
    (get_hand_strength_tier (specNotation a b)), ?_, ?_⟩
  · unfold evaluate_decision evaluatePreflop
    rw [if_pos hstreet, hcards, notation_pair]
    simp only [bind, Except.bind, hhist, hbet, List.length_nil, and_self,
      eq_self_iff_true, if_true, ite_true]
    rfl
  · obtain ⟨h1, h2, h3, h4, h5, h6⟩ :=
      evaluateOpening_table chosen (specNotation a b) scenario.hero_position
        (is_in_opening_range (specNotation a b) scenario.hero_position)
        (get_hand_strength_tier (specNotation a b))
    exact ⟨h1, fun hc => h2 (h1 ▸ hc), h3, h4, h5, h6⟩

/-- C1 (witness): pocket aces on the button, first to act, chosen raise:
the evaluation succeeds, best action is raise and the grade is Excellent. -/
theorem opening_regime_grading_witness :
    ∃ ev,
      evaluate_decision
          { street := .PREFLOP, hero_position := .BTN,
            hero_cards := [⟨.ACE, .SPADES⟩, ⟨.ACE, .DIAMONDS⟩],
            action_history := [], pot_size := 3/2, current_bet := 0 }
          .RAISE = .ok ev ∧
        (ev.best_action
            = if is_in_opening_range
                  (specNotation ⟨.ACE, .SPADES⟩ ⟨.ACE, .DIAMONDS⟩) Position.BTN
              then Action.RAISE else Action.FOLD) ∧
        (Action.RAISE = ev.best_action → ev.grade = .EXCELLENT) ∧
        (Action.RAISE = .RAISE →
          is_in_opening_range
              (specNotation ⟨.ACE, .SPADES⟩ ⟨.ACE, .DIAMONDS⟩) Position.BTN = false →
          (get_hand_strength_tier (specNotation ⟨.ACE, .SPADES⟩ ⟨.ACE, .DIAMONDS⟩) ≤ 3 →
            ev.grade = .INACCURATE) ∧
          (4 ≤ get_hand_strength_tier (specNotation ⟨.ACE, .SPADES⟩ ⟨.ACE, .DIAMONDS⟩) →
            ev.grade = .MISTAKE)) ∧
        (Action.RAISE = .FOLD →
          is_in_opening_range
              (specNotation ⟨.ACE, .SPADES⟩ ⟨.ACE, .DIAMONDS⟩) Position.BTN = true →
          (get_hand_strength_tier (specNotation ⟨.ACE, .SPADES⟩ ⟨.ACE, .DIAMONDS⟩) = 1 →
            ev.grade = .BLUNDER) ∧
          (get_hand_strength_tier (specNotation ⟨.ACE, .SPADES⟩ ⟨.ACE, .DIAMONDS⟩) = 2 →
            ev.grade = .MISTAKE) ∧
          (get_hand_strength_tier (specNotation ⟨.ACE, .SPADES⟩ ⟨.ACE, .DIAMONDS⟩) = 3 ∨
              get_hand_strength_tier (specNotation ⟨.ACE, .SPADES⟩ ⟨.ACE, .DIAMONDS⟩) = 4 →
            ev.grade = .INACCURATE)) ∧
        (Action.RAISE = .CALL → ev.grade = .MISTAKE) ∧
        (Action.RAISE = .CHECK ∨ Action.RAISE = .BET ∨ Action.RAISE = .ALL_IN →
          ev.grade = .MISTAKE) :=
  opening_regime_grading
    { street := .PREFLOP, hero_position := .BTN,
      hero_cards := [⟨.ACE, .SPADES⟩, ⟨.ACE, .DIAMONDS⟩],
      action_history := [], pot_size := 3/2, current_bet := 0 }
    .RAISE ⟨.ACE, .SPADES⟩ ⟨.ACE, .DIAMONDS⟩ rfl rfl rfl rfl

/-! ### C2 — facing aggression, tier 3 -/

/-- The tier-3 rows of the `_evaluate_facing_raise` grading table. -/
theorem evaluateFacingRaise_tier3 (scenario : Scenario) (chosen : Action)
    (hn : String) :
    (calculate_pot_odds scenario.pot_size scenario.current_bet < 0.25 →
      (evaluateFacingRaise scenario chosen hn 3).best_action = .CALL ∧
        (chosen = .CALL →
          (evaluateFacingRaise scenario chosen hn 3).grade = .GOOD) ∧
        (chosen = .FOLD →
          (evaluateFacingRaise scenario chosen hn 3).grade = .INACCURATE) ∧
        (chosen = .RAISE →
          (evaluateFacingRaise scenario chosen hn 3).grade = .INACCURATE)) ∧
      (0.25 ≤ calculate_pot_odds scenario.pot_size scenario.current_bet →
        (evaluateFacingRaise scenario chosen hn 3).best_action = .FOLD ∧
          (chosen = .FOLD →
            (evaluateFacingRaise scenario chosen hn 3).grade = .EXCELLENT) ∧
          (chosen = .CALL ∨ chosen = .RAISE →
            (evaluateFacingRaise scenario chosen hn 3).grade = .INACCURATE)) := by
  by_cases hpo : calculate_pot_odds scenario.pot_size scenario.current_bet < 0.25
  · refine ⟨fun _ => ?_, fun h => absurd hpo (not_lt.mpr h)⟩
    cases chosen <;>
      simp [evaluateFacingRaise, apply_ite DecisionEvaluation.best_action,
        apply_ite DecisionEvaluation.grade, hpo]
  · refine ⟨fun h => absurd h hpo, fun _ => ?_⟩
    cases chosen <;>
      simp [evaluateFacingRaise, apply_ite DecisionEvaluation.best_action,
        apply_ite DecisionEvaluation.grade, hpo]

/-- C2: preflop, outside the opening regime, with a tier-3 hand: the
engine computes pot odds from the scenario's pot size and current bet;
below 0.25 the best action is call (call→Good, fold→Inaccurate,
raise→Inaccurate), at or above 0.25 the best action is fold
(fold→Excellent, call/raise→Inaccurate). -/
theorem facing_raise_tier3_grading (scenario : Scenario) (chosen : Action)
    (nota : String)
    (hstreet : scenario.street = .PREFLOP)
    (hnota : get_hand_notation scenario.hero_cards = .ok nota)
    (htier : get_hand_strength_tier nota = 3)
    (hnotopen : ¬ (scenario.action_history.length = 0 ∧ scenario.current_bet = 0))
    (hpot : 0 ≤ scenario.pot_size) (hbet : 0 ≤ scenario.current_bet) :
    ∃ ev, evaluate_decision scenario chosen = .ok ev ∧
      (calculate_pot_odds scenario.pot_size scenario.current_bet < 0.25 →
        ev.best_action = .CALL ∧
          (chosen = .CALL → ev.grade = .GOOD) ∧
          (chosen = .FOLD → ev.grade = .INACCURATE) ∧
          (chosen = .RAISE → ev.grade = .INACCURATE)) ∧
      (0.25 ≤ calculate_pot_odds scenario.pot_size scenario.current_bet →
        ev.best_action = .FOLD ∧
          (chosen = .FOLD → ev.grade = .EXCELLENT) ∧
          (chosen = .CALL ∨ chosen = .RAISE → ev.grade = .INACCURATE)) := by
  refine ⟨evaluateFacingRaise scenario chosen nota 3, ?_, ?_⟩
  · unfold evaluate_decision evaluatePreflop
    rw [if_pos hstreet, hnota]
    simp only [bind, Except.bind]
    rw [if_neg hnotopen, htier]
    rfl
  · exact evaluateFacingRaise_tier3 scenario chosen nota

/-- C2 (witness): pocket eights (tier 3) facing a 3BB raise with a 10BB
pot: pot odds 3/13 < 0.25, so the best action is call and calling grades
Good. -/
theorem facing_raise_tier3_grading_witness :
    ∃ ev,
      evaluate_decision
          { street := .PREFLOP, hero_position := .BB,
            hero_cards := [⟨.EIGHT, .SPADES⟩, ⟨.EIGHT, .DIAMONDS⟩],
            action_history := [⟨.UTG, .RAISE, some 3⟩],
            pot_size := 10, current_bet := 3 }
          .CALL = .ok ev ∧
        (calculate_pot_odds 10 3 < 0.25 →
          ev.best_action = .CALL ∧
            (Action.CALL = .CALL → ev.grade = .GOOD) ∧
            (Action.CALL = .FOLD → ev.grade = .INACCURATE) ∧
            (Action.CALL = .RAISE → ev.grade = .INACCURATE)) ∧
        (0.25 ≤ calculate_pot_odds 10 3 →
          ev.best_action = .FOLD ∧
            (Action.CALL = .FOLD → ev.grade = .EXCELLENT) ∧
            (Action.CALL = .CALL ∨ Action.CALL = .RAISE →
              ev.grade = .INACCURATE)) :=
  facing_raise_tier3_grading
    { street := .PREFLOP, hero_position := .BB,
      hero_cards := [⟨.EIGHT, .SPADES⟩, ⟨.EIGHT, .DIAMONDS⟩],
      action_history := [⟨.UTG, .RAISE, some 3⟩],
      pot_size := 10, current_bet := 3 }
    .CALL "88" rfl rfl rfl
    (by norm_num) (by norm_num) (by norm_num)

/-! ### C10 — `parse_cards` -/

/-- Parsing a token list fails exactly when some token fails to parse. -/
theorem mapM_parse_error_iff (l : List (List Char)) :
    (∃ e, l.mapM parse_card = .error e) ↔
      ∃ t ∈ l, ∃ e, parse_card t = .error e := by
  induction l with
  | nil =>
    constructor
    · rintro ⟨e, he⟩
      exact Except.noConfusion he
    · rintro ⟨t, ht, _⟩
      exact absurd ht (List.not_mem_nil t)
  | cons t ts ih =>
    rw [List.mapM_cons]
    cases ht : parse_card t with
    | error e => simp [ht, bind, Except.bind]
    | ok c =>
      simp only [ht, bind, Except.bind]
      cases hts : ts.mapM parse_card with
      | error e2 =>
        simp only [hts]
        constructor
        · intro _
          obtain ⟨t', hmem, he'⟩ := ih.mp ⟨e2, hts⟩
          exact ⟨t', List.mem_cons_of_mem t hmem, he'⟩
        · intro _
          exact ⟨e2, rfl⟩
      | ok cs =>
        simp only [hts, pure, Except.pure]
        constructor
        · rintro ⟨e, he⟩
          exact Except.noConfusion he
        · rintro ⟨t', ht', e, he⟩
          rcases List.mem_cons.mp ht' with rfl | hmem
          · rw [ht] at he
            exact Except.noConfusion he
          · rcases ih.mpr ⟨t', hmem, e, he⟩ with ⟨e', he'⟩
            rw [hts] at he'
            exact Except.noConfusion he'

/-- Parsing a token list propagates the error of the first failing token:
all tokens before it parse. -/
theorem mapM_parse_error_first (l : List (List Char)) (e : String)
    (h : l.mapM parse_card = .error e) :
    ∃ pre t post, l = pre ++ t :: post ∧ parse_card t = .error e ∧
      ∀ t' ∈ pre, ∃ c, parse_card t' = .ok c := by
  induction l with
  | nil => exact Except.noConfusion h
  | cons t ts ih =>
    rw [List.mapM_cons] at h
    cases ht : parse_card t with
    | error e' =>
      rw [ht] at h
      simp only [bind, Except.bind] at h
      obtain rfl : e' = e := Except.error.inj h
      exact ⟨[], t, ts, rfl, ht, by simp⟩
    | ok c =>
      rw [ht] at h
      simp only [bind, Except.bind] at h
      cases hts : ts.mapM parse_card with
      | error e2 =>
        rw [hts] at h
        simp only [Except.bind] at h
        obtain rfl : e2 = e := Except.error.inj h
        obtain ⟨pre, t', post, heq, ht', hpre⟩ := ih hts
        refine ⟨t :: pre, t', post, by rw [heq, List.cons_append], ht', ?_⟩
        intro x hx
        rcases List.mem_cons.mp hx with rfl | hmem
        · exact ⟨c, ht⟩
        · exact hpre x hmem
      | ok cs =>
        rw [hts] at h
        simp only [pure, Except.pure] at h
        exact Except.noConfusion h

/-- A string of only whitespace splits into no tokens. -/
theorem splitWsAux_all_space (l : List Char) (h : ∀ c ∈ l, pyIsSpace c) :
    splitWsAux l [] = [] := by
  induction l with
  | nil => rfl
  | cons c cs ih =>
    have hc : pyIsSpace c := h c (by simp)
    simp only [splitWsAux, hc, if_true, List.isEmpty_nil, ite_true]
    exact ih fun x hx => h x (by simp [hx])

/-- C10: `parse_cards` fails exactly when some whitespace-separated token
of the input fails to parse as a card, and it propagates the first such
failure; an empty or whitespace-only input yields the empty list without
error. -/
theorem parse_cards_spec (s : String) :
    ((∃ e, parse_cards s = .error e) ↔
        ∃ t ∈ pySplit s, ∃ e, parse_card t = .error e) ∧
      (∀ e, parse_cards s = .error e →
        ∃ pre t post, pySplit s = pre ++ t :: post ∧ parse_card t = .error e ∧
          ∀ t' ∈ pre, ∃ c, parse_card t' = .ok c) ∧
      ((∀ c ∈ s.data, pyIsSpace c) → parse_cards s = .ok []) := by
  refine ⟨mapM_parse_error_iff _, fun e he => mapM_parse_error_first _ e he, ?_⟩
  intro hws
  unfold parse_cards pySplit
  rw [splitWsAux_all_space s.data hws]
  rfl

/-- C10 (witness): the theorem applied to a whitespace-only string, with
the whitespace-only clause discharged: the result is the empty list. -/
theorem parse_cards_spec_witness :
    parse_cards "  " = .ok [] :=
  (parse_cards_spec "  ").2.2 (by decide)

/-! ### C4 — tiebreaker lengths -/

/-- Sorting does not change the length. -/
theorem length_sortDesc (l : List Nat) : (sortDesc l).length = l.length :=
  (List.perm_insertionSort _ l).length_eq

/-- The rank list of a hand has the hand's length. -/
theorem length_rankVals (cs : List Card) : (rankVals cs).length = cs.length := by
  simp [rankVals]

/-- Bucketing a list by a function with values in 1–5: the sum of the
function over the list splits into the five bucket sizes. -/
theorem count_buckets (l : List Nat) (f : Nat → Nat)
    (hf : ∀ r ∈ l, 1 ≤ f r ∧ f r ≤ 5) :
    (l.map f).sum =
      (l.filter (fun r => f r = 1)).length
        + 2 * (l.filter (fun r => f r = 2)).length
        + 3 * (l.filter (fun r => f r = 3)).length
        + 4 * (l.filter (fun r => f r = 4)).length
        + 5 * (l.filter (fun r => f r = 5)).length := by
  induction l with
  | nil => simp
  | cons a t ih =>
    have ha := hf a (by simp)
    have ih' := ih fun r hr => hf r (by simp [hr])
    simp only [List.map_cons, List.sum_cons, List.filter_cons]
    have hcase : f a = 1 ∨ f a = 2 ∨ f a = 3 ∨ f a = 4 ∨ f a = 5 := by omega
    rcases hcase with h | h | h | h | h <;> simp [h, ih'] <;> omega

/-- For a five-card hand, the multiplicities of the distinct ranks sum
to five: one bucket per multiplicity 1–5. -/
theorem counts_equation (cs : List Card) (h5 : cs.length = 5) :
    (ranksWithCount cs 1).length + 2 * (ranksWithCount cs 2).length
      + 3 * (ranksWithCount cs 3).length + 4 * (ranksWithCount cs 4).length
      + 5 * (ranksWithCount cs 5).length = 5 := by
  have hsum := List.sum_map_count_dedup_eq_length (rankVals cs)
  have hb : ∀ r ∈ (rankVals cs).dedup,
      1 ≤ (rankVals cs).count r ∧ (rankVals cs).count r ≤ 5 := by
    intro r hr
    rw [List.mem_dedup] at hr
    refine ⟨List.count_pos_iff.mpr hr, ?_⟩
    calc (rankVals cs).count r ≤ (rankVals cs).length := List.count_le_length r _
    _ = 5 := by rw [length_rankVals, h5]
  have hbk := count_buckets (rankVals cs).dedup (fun r => (rankVals cs).count r) hb
  unfold ranksWithCount
  rw [← hbk, hsum, length_rankVals, h5]

/-- C4 core: a five-card classification always carries the tiebreaker
length its category mandates (quads/full house 2, two pair and trips 3,
one pair 4, 5 otherwise). -/
theorem wf_evaluate_five (cs : List Card) (h5 : cs.length = 5) :
    WfStrength (_evaluate_five_cards cs) := by
  have heq := counts_equation cs h5
  have hranks : (sortDesc (rankVals cs)).length = 5 := by
    rw [length_sortDesc, length_rankVals, h5]
  unfold _evaluate_five_cards WfStrength
  dsimp only
  split_ifs with hrf hsf h4 hfh hfl hst h3 hp2 hp1
  · exact hranks
  · exact hranks
  · rfl
  · rfl
  · exact hranks
  · exact hranks
  · -- three of a kind: exactly two singleton ranks remain
    have e4 : (ranksWithCount cs 4).length = 0 := by
      rw [not_not.mp h4]
      rfl
    have e3 : 1 ≤ (ranksWithCount cs 3).length := by
      have := List.length_pos.mpr h3
      omega
    have e2 : (ranksWithCount cs 2).length = 0 := by
      rcases List.eq_nil_or_concat (ranksWithCount cs 2) with h | ⟨_, _, h⟩
      · rw [h]; rfl
      · exfalso
        exact hfh ⟨h3, by simp [h]⟩
    have e1 : (ranksWithCount cs 1).length = 2 := by
      have h31 : (ranksWithCount cs 3).length = 1 := by omega
      omega
    simp only [List.length_cons, length_sortDesc, e1, tieLen]
  · -- two pair
    simp only [List.length_append, hp2, tieLen, List.length_cons,
      List.length_nil]
  · -- one pair: exactly three singleton ranks remain
    have e4 : (ranksWithCount cs 4).length = 0 := by
      rw [not_not.mp h4]
      rfl
    have e3 : (ranksWithCount cs 3).length = 0 := by
      rcases List.eq_nil_or_concat (ranksWithCount cs 3) with h | ⟨_, _, h⟩
      · rw [h]; rfl
      · exfalso
        exact h3 (by simp [h])
    have e2 : (ranksWithCount cs 2).length = 1 := by
      rw [← length_sortDesc]
      exact hp1
    have e1 : (ranksWithCount cs 1).length = 3 := by omega
    simp only [List.length_append, length_sortDesc, hp1, e1, tieLen]
  · exact hranks

/-! ### Order lemmas for `HandStrength.__lt__` -/

/-- The tiebreaker loop never reports a list below itself. -/
theorem lexLt_irrefl (l : List Nat) : lexLt l l = false := by
  induction l with
  | nil => rfl
  | cons a t ih => simp [lexLt, ih]

/-- On equal-length lists the tiebreaker loop is transitive. -/
theorem lexLt_trans : ∀ {a b c : List Nat}, a.length = b.length →
    b.length = c.length → lexLt a b = true → lexLt b c = true →
    lexLt a c = true := by
  intro a
  induction a with
  | nil =>
    intro b c h1 _ hab _
    cases b <;> simp_all [lexLt]
  | cons x xs ih =>
    intro b c h1 h2 hab hbc
    cases b with
    | nil => simp at h1
    | cons y ys =>
      cases c with
      | nil => simp at h2
      | cons z zs =>
        simp only [lexLt] at hab hbc ⊢
        by_cases hxy : x = y <;> by_cases hyz : y = z
        · subst hxy
          subst hyz
          simp only [ne_eq, not_true_eq_false, if_false, ite_false] at hab hbc ⊢
          exact ih (by simpa using h1) (by simpa using h2) hab hbc
        · subst hxy
          rw [if_neg (by omega : ¬ x ≠ x)] at hab
          rw [if_pos hyz] at hbc
          rw [if_pos hyz]
          exact hbc
        · subst hyz
          rw [if_pos hxy] at hab
          rw [if_pos hxy]
          exact hab
        · rw [if_pos hxy] at hab
          rw [if_pos hyz] at hbc
          have h1v := of_decide_eq_true hab
          have h2v := of_decide_eq_true hbc
          rw [if_pos (by omega : x ≠ z)]
          exact decide_eq_true (by omega)

/-- On equal-length lists, if neither side is below the other, the lists
are equal. -/
theorem lexLt_total : ∀ {a b : List Nat}, a.length = b.length →
    lexLt a b = false → lexLt b a = false → a = b := by
  intro a
  induction a with
  | nil =>
    intro b h _ _
    cases b with
    | nil => rfl
    | cons _ _ => simp at h
  | cons x xs ih =>
    intro b h hab hba
    cases b with
    | nil => simp at h
    | cons y ys =>
      simp only [lexLt] at hab hba
      by_cases hxy : x = y
      · subst hxy
        simp only [if_neg (by omega : ¬ x ≠ x)] at hab hba
        rw [ih (by simpa using h) hab hba]
      · rw [if_pos hxy] at hab
        rw [if_pos (Ne.symm hxy)] at hba
        have := of_decide_eq_false hab
        have := of_decide_eq_false hba
        omega

/-- The `HandRank` ordinal determines the category. -/
theorem handRank_value_inj (r s : HandRank)
    (h : r.rank_value = s.rank_value) : r = s := by
  cases r <;> cases s <;> first | rfl | exact absurd h (by decide)

/-- `HandStrength.__lt__` is irreflexive. -/
theorem hsLt_irrefl (a : HandStrength) : hsLt a a = false := by
  simp [hsLt, lexLt_irrefl]

/-- Well-formed strengths with the same rank ordinal carry tiebreaker
vectors of the same length. -/
theorem wf_same_rank_length {a b : HandStrength} (ha : WfStrength a)
    (hb : WfStrength b) (h : a.rank.rank_value = b.rank.rank_value) :
    a.tiebreakers.length = b.tiebreakers.length := by
  rw [ha, hb, handRank_value_inj _ _ h]

/-- `HandStrength.__lt__` is transitive on well-formed strengths. -/
theorem hsLt_trans {a b c : HandStrength} (ha : WfStrength a)
    (hb : WfStrength b) (hc : WfStrength c)
    (hab : hsLt a b = true) (hbc : hsLt b c = true) : hsLt a c = true := by
  unfold hsLt at *
  by_cases h1 : a.rank.rank_value = b.rank.rank_value <;>
    by_cases h2 : b.rank.rank_value = c.rank.rank_value
  · rw [if_neg (by omega : ¬ a.rank.rank_value ≠ b.rank.rank_value)] at hab
    rw [if_neg (by omega : ¬ b.rank.rank_value ≠ c.rank.rank_value)] at hbc
    rw [if_neg (by omega : ¬ a.rank.rank_value ≠ c.rank.rank_value)]
    exact lexLt_trans (wf_same_rank_length ha hb h1)
      (wf_same_rank_length hb hc h2) hab hbc
  · rw [if_pos (by omega : b.rank.rank_value ≠ c.rank.rank_value)] at hbc
    have := of_decide_eq_true hbc
    rw [if_pos (by omega : a.rank.rank_value ≠ c.rank.rank_value)]
    exact decide_eq_true (by omega)
  · rw [if_pos (by omega : a.rank.rank_value ≠ b.rank.rank_value)] at hab
    have := of_decide_eq_true hab
    rw [if_pos (by omega : a.rank.rank_value ≠ c.rank.rank_value)]
    exact decide_eq_true (by omega)
  · rw [if_pos (by omega : a.rank.rank_value ≠ b.rank.rank_value)] at hab
    rw [if_pos (by omega : b.rank.rank_value ≠ c.rank.rank_value)] at hbc
    have hv1 := of_decide_eq_true hab
    have hv2 := of_decide_eq_true hbc
    rw [if_pos (by omega : a.rank.rank_value ≠ c.rank.rank_value)]
    exact decide_eq_true (by omega)

/-- `HandStrength.__lt__` is total on well-formed strengths: two
strengths neither of which is below the other are equal. -/
theorem hsLt_total {a b : HandStrength} (ha : WfStrength a)
    (hb : WfStrength b) (hab : hsLt a b = false) (hba : hsLt b a = false) :
    a = b := by
  unfold hsLt at hab hba
  by_cases h : a.rank.rank_value = b.rank.rank_value
  · rw [if_neg (by omega : ¬ a.rank.rank_value ≠ b.rank.rank_value)] at hab
    rw [if_neg (by omega : ¬ b.rank.rank_value ≠ a.rank.rank_value)] at hba
    have htie := lexLt_total (wf_same_rank_length ha hb h) hab hba
    have hrank := handRank_value_inj _ _ h
    obtain ⟨ra, ta⟩ := a
    obtain ⟨rb, tb⟩ := b
    simp only at htie hrank
    rw [htie, hrank]
  · rw [if_pos (by omega : a.rank.rank_value ≠ b.rank.rank_value)] at hab
    rw [if_pos (by omega : b.rank.rank_value ≠ a.rank.rank_value)] at hba
    have := of_decide_eq_false hab
    have := of_decide_eq_false hba
    omega

/-! ### The best-of-subsets fold -/

/-- Invariant of the best-of-subsets fold: starting from a well-formed
accumulator, the fold returns a well-formed strength that came from the
accumulator or one of the combinations and is not below any of them. -/
theorem foldBest_some (l : List (List Card)) :
    ∀ acc : HandStrength, WfStrength acc → (∀ s ∈ l, s.length = 5) →
      ∃ r, l.foldl bestStep (some acc) = some r ∧ WfStrength r ∧
        (r = acc ∨ ∃ s ∈ l, r = _evaluate_five_cards s) ∧
        hsLt r acc = false ∧
        ∀ s ∈ l, hsLt r (_evaluate_five_cards s) = false := by
  induction l with
  | nil =>
    intro acc hacc _
    exact ⟨acc, rfl, hacc, Or.inl rfl, hsLt_irrefl acc, by simp⟩
  | cons s t ih =>
    intro acc hacc hlen
    have hs5 : s.length = 5 := hlen s (by simp)
    have hws : WfStrength (_evaluate_five_cards s) := wf_evaluate_five s hs5
    rw [List.foldl_cons]
    by_cases hstep : hsLt acc (_evaluate_five_cards s) = true
    · have hstep' : bestStep (some acc) s = some (_evaluate_five_cards s) := by
        simp [bestStep, hstep]
      rw [hstep']
      obtain ⟨r, hfold, hwr, hsrc, hracc, hrall⟩ :=
        ih (_evaluate_five_cards s) hws (fun x hx => hlen x (by simp [hx]))
      refine ⟨r, hfold, hwr, ?_, ?_, ?_⟩
      · rcases hsrc with rfl | ⟨x, hx, rfl⟩
        · exact Or.inr ⟨s, by simp, rfl⟩
        · exact Or.inr ⟨x, by simp [hx], rfl⟩
      · by_contra hcon
        rw [Bool.not_eq_false] at hcon
        have := hsLt_trans hwr hacc hws hcon hstep
        rw [this] at hracc
        exact Bool.noConfusion hracc
      · intro x hx
        rcases List.mem_cons.mp hx with rfl | hmem
        · exact hracc
        · exact hrall x hmem
    · have hstep' : bestStep (some acc) s = some acc := by
        simp [bestStep, hstep]
      rw [hstep']
      obtain ⟨r, hfold, hwr, hsrc, hracc, hrall⟩ :=
        ih acc hacc (fun x hx => hlen x (by simp [hx]))
      refine ⟨r, hfold, hwr, ?_, hracc, ?_⟩
      · rcases hsrc with rfl | ⟨x, hx, rfl⟩
        · exact Or.inl rfl
        · exact Or.inr ⟨x, by simp [hx], rfl⟩
      · intro x hx
        rcases List.mem_cons.mp hx with rfl | hmem
        · by_contra hcon
          rw [Bool.not_eq_false] at hcon
          rw [Bool.not_eq_true] at hstep
          by_cases hxa : hsLt (_evaluate_five_cards x) acc = true
          · have := hsLt_trans hwr hws hacc hcon hxa
            rw [this] at hracc
            exact Bool.noConfusion hracc
          · rw [Bool.not_eq_true] at hxa
            have heq := hsLt_total hacc hws hstep hxa
            rw [← heq] at hcon
            rw [hcon] at hracc
            exact Bool.noConfusion hracc
        · exact hrall x hmem

/-- The best-of-subsets fold over a nonempty list of 5-card combinations
returns the strength of one combination, not below any of them. -/
theorem bestOf_spec (combos : List (List Card)) (hne : combos ≠ [])
    (hl : ∀ s ∈ combos, s.length = 5) :
    ∃ r, bestOf combos = some r ∧ WfStrength r ∧
      (∃ s ∈ combos, r = _evaluate_five_cards s) ∧
      ∀ s ∈ combos, hsLt r (_evaluate_five_cards s) = false := by
  cases combos with
  | nil => exact absurd rfl hne
  | cons s t =>
    unfold bestOf
    rw [List.foldl_cons]
    have h0 : bestStep none s = some (_evaluate_five_cards s) := rfl
    rw [h0]
    have hs5 : s.length = 5 := hl s (by simp)
    obtain ⟨r, hfold, hwr, hsrc, hracc, hrall⟩ :=
      foldBest_some t (_evaluate_five_cards s) (wf_evaluate_five s hs5)
        (fun x hx => hl x (by simp [hx]))
    refine ⟨r, hfold, hwr, ?_, ?_⟩
    · rcases hsrc with rfl | ⟨x, hx, rfl⟩
      · exact ⟨s, by simp, rfl⟩
      · exact ⟨x, by simp [hx], rfl⟩
    · intro x hx
      rcases List.mem_cons.mp hx with rfl | hmem
      · exact hracc
      · exact hrall x hmem

/-! ### `evaluate_hand` on the different hand sizes -/

/-- On exactly five cards `evaluate_hand` is the direct classification. -/
theorem evaluate_hand_five (cs : List Card) (h : cs.length = 5) :
    evaluate_hand cs = .ok (_evaluate_five_cards cs) := by
  unfold evaluate_hand
  rw [if_neg (by omega), if_neg (by omega), if_neg (by omega)]

/-- On six or seven cards `evaluate_hand` returns the strength of some
5-card combination, not below the strength of any 5-card sublist. -/
theorem evaluate_hand_67 (cs : List Card) (h : cs.length = 6 ∨ cs.length = 7) :
    ∃ r, evaluate_hand cs = .ok r ∧ WfStrength r ∧
      (∃ s, List.Sublist s cs ∧ s.length = 5 ∧ r = _evaluate_five_cards s) ∧
      ∀ s, List.Sublist s cs → s.length = 5 →
        hsLt r (_evaluate_five_cards s) = false := by
  have hne : List.sublistsLen 5 cs ≠ [] := by
    intro hnil
    have hlen := List.length_sublistsLen 5 cs
    rw [hnil] at hlen
    rcases h with h | h <;> rw [h] at hlen <;> simp [Nat.choose] at hlen
  have hl : ∀ s ∈ List.sublistsLen 5 cs, s.length = 5 :=
    fun s hs => (List.mem_sublistsLen.mp hs).2
  obtain ⟨r, hbest, hwf, ⟨s0, hs0, hr0⟩, hall⟩ := bestOf_spec _ hne hl
  refine ⟨r, ?_, hwf,
    ⟨s0, (List.mem_sublistsLen.mp hs0).1, (List.mem_sublistsLen.mp hs0).2, hr0⟩,
    ?_⟩
  · unfold evaluate_hand
    rcases h with h6 | h7
    · rw [if_neg (by omega), if_neg (by omega), if_pos h6, hbest]
    · rw [if_neg (by omega), if_pos h7, hbest]
  · intro s hsub h5
    exact hall s (List.mem_sublistsLen.mpr ⟨hsub, h5⟩)

/-- C4 (counterexample): the claim mandates tiebreaker length 4 for
Three of a Kind, but trips of aces with two kickers produce the vector
`[14, 13, 12]` of length 3 (three cards share one rank, so only two
singleton kicker ranks remain). -/
theorem trips_tiebreaker_counterexample :
    evaluate_hand
        [⟨.ACE, .HEARTS⟩, ⟨.ACE, .DIAMONDS⟩, ⟨.ACE, .CLUBS⟩,
         ⟨.KING, .SPADES⟩, ⟨.QUEEN, .SPADES⟩]
      = .ok ⟨.THREE_OF_A_KIND, [14, 13, 12]⟩ ∧
      ¬ ([14, 13, 12] : List Nat).length = 4 := by
  exact ⟨rfl, by decide⟩

/-- C4 (amended): for every hand of 5 to 7 cards, `evaluate_hand`
succeeds with one of the 10 `HandRank` categories and the tiebreaker
vector has the length that category produces: 2 for Four of a Kind and
Full House, 3 for Two Pair and Three of a Kind, 4 for One Pair, and 5 for
every other category. -/
theorem evaluate_hand_tiebreaker_length (cs : List Card)
    (h5 : 5 ≤ cs.length) (h7 : cs.length ≤ 7) :
    ∃ hs, evaluate_hand cs = .ok hs ∧
      hs.tiebreakers.length = tieLen hs.rank := by
  rcases (by omega : cs.length = 5 ∨ cs.length = 6 ∨ cs.length = 7) with
    h | h
  · exact ⟨_, evaluate_hand_five cs h, wf_evaluate_five cs h⟩
  · obtain ⟨r, hok, hwf, _, _⟩ := evaluate_hand_67 cs h
    exact ⟨r, hok, hwf⟩

/-- C4 (witness): the amended theorem applied to a concrete five-card
full house, whose tiebreaker vector has length 2. -/
theorem evaluate_hand_tiebreaker_length_witness :
    ∃ hs,
      evaluate_hand
          [⟨.TWO, .HEARTS⟩, ⟨.TWO, .DIAMONDS⟩, ⟨.TWO, .CLUBS⟩,
           ⟨.THREE, .SPADES⟩, ⟨.THREE, .DIAMONDS⟩] = .ok hs ∧
        hs.tiebreakers.length = tieLen hs.rank :=
  evaluate_hand_tiebreaker_length
    [⟨.TWO, .HEARTS⟩, ⟨.TWO, .DIAMONDS⟩, ⟨.TWO, .CLUBS⟩,
     ⟨.THREE, .SPADES⟩, ⟨.THREE, .DIAMONDS⟩]
    (by decide) (by decide)

/-! ### C3 — best-of-subsets monotonicity -/

/-- C3: for every 6- or 7-card hand, `evaluate_hand` succeeds and its
result is, under `HandStrength.__lt__`, at least the result of
`evaluate_hand` on every 5-card sublist (never below it, and above or
equal to it by totality of the order on well-formed strengths), and it
equals the result on some 5-card sublist. -/
theorem evaluate_hand_best_subset (cs : List Card)
    (h : cs.length = 6 ∨ cs.length = 7) :
    ∃ r, evaluate_hand cs = .ok r ∧
      (∀ s, List.Sublist s cs → s.length = 5 →
        ∀ v, evaluate_hand s = .ok v →
          hsLt r v = false ∧ (hsLt v r = true ∨ v = r)) ∧
      (∃ s, List.Sublist s cs ∧ s.length = 5 ∧ evaluate_hand s = .ok r) := by
  obtain ⟨r, hok, hwf, ⟨s0, hsub0, h50, hr0⟩, hall⟩ := evaluate_hand_67 cs h
  refine ⟨r, hok, ?_, ⟨s0, hsub0, h50, ?_⟩⟩
  · intro s hsub hlen5 v hv
    rw [evaluate_hand_five s hlen5] at hv
    obtain rfl : _evaluate_five_cards s = v := Except.ok.inj hv
    have hrv := hall s hsub hlen5
    refine ⟨hrv, ?_⟩
    by_cases hvr : hsLt (_evaluate_five_cards s) r = true
    · exact Or.inl hvr
    · rw [Bool.not_eq_true] at hvr
      exact Or.inr (hsLt_total (wf_evaluate_five s hlen5) hwf hvr hrv)
  · rw [evaluate_hand_five s0 h50, hr0]

/-- C3 (witness): the theorem applied to a concrete 6-card hand (two
pair plus kickers). -/
theorem evaluate_hand_best_subset_witness :
    ∃ r,
      evaluate_hand
          [⟨.ACE, .HEARTS⟩, ⟨.ACE, .DIAMONDS⟩, ⟨.KING, .CLUBS⟩,
           ⟨.KING, .SPADES⟩, ⟨.QUEEN, .SPADES⟩, ⟨.TWO, .CLUBS⟩] = .ok r ∧
        (∀ s, List.Sublist s
              [⟨.ACE, .HEARTS⟩, ⟨.ACE, .DIAMONDS⟩, ⟨.KING, .CLUBS⟩,
               ⟨.KING, .SPADES⟩, ⟨.QUEEN, .SPADES⟩, ⟨.TWO, .CLUBS⟩] →
          s.length = 5 →
          ∀ v, evaluate_hand s = .ok v →
            hsLt r v = false ∧ (hsLt v r = true ∨ v = r)) ∧
        (∃ s, List.Sublist s
              [⟨.ACE, .HEARTS⟩, ⟨.ACE, .DIAMONDS⟩, ⟨.KING, .CLUBS⟩,
               ⟨.KING, .SPADES⟩, ⟨.QUEEN, .SPADES⟩, ⟨.TWO, .CLUBS⟩] ∧
            s.length = 5 ∧ evaluate_hand s = .ok r) :=
  evaluate_hand_best_subset
    [⟨.ACE, .HEARTS⟩, ⟨.ACE, .DIAMONDS⟩, ⟨.KING, .CLUBS⟩,
     ⟨.KING, .SPADES⟩, ⟨.QUEEN, .SPADES⟩, ⟨.TWO, .CLUBS⟩]
    (Or.inl (by decide))

end PokerTrainer
